import Mathlib

/-!
Shallow embedding of the QR-Code-FH survey-URL generator (src/app.py).

The core of the program is three pure functions:
  * canon_query : sorted key=value join used as the signing string;
  * make_sig    : HMAC-SHA256 (lowercase hex) over the canonical string;
  * build_url   : https URL assembly with Python urlencode-style quoting.
The module top level assembles the parameter mapping from the form fields
(store_id, order_id, optional ts, optional sig) and builds the final URL.

Python dicts are embedded as association lists in insertion order; dict
values (text or text-convertible scalars) as a small sum type with the
str() coercion. Python string comparison is code-point lexicographic
comparison, embedded below as an executable three-way compare on the
code-point lists of the strings.
-/

namespace QRApp

/-- A Python parameter value: text or a text-convertible scalar (int). -/
inductive PValue where
  | str (s : String)
  | int (n : Int)
deriving DecidableEq, Repr

/-- Python str() coercion on a parameter value. -/
def pvStr : PValue → String
  | .str s => s
  | .int n => toString n

/-- A parameter mapping, in insertion order (Python dict). -/
abbrev Params := List (String × PValue)

/-- Code-point lexicographic three-way comparison of two character lists:
Python string comparison. -/
def lexCmp : List Char → List Char → Ordering
  | [], [] => .eq
  | [], _ :: _ => .lt
  | _ :: _, [] => .gt
  | a :: as, b :: bs =>
    if a.toNat < b.toNat then .lt
    else if b.toNat < a.toNat then .gt
    else lexCmp as bs

theorem char_eq_of_toNat_eq {a b : Char} (h : a.toNat = b.toNat) : a = b := by
  apply Char.ext
  apply UInt32.ext
  exact h

theorem string_ext {s t : String} (h : s.data = t.data) : s = t := by
  cases s; cases t; exact congrArg String.mk h

theorem lexCmp_cons_lt {a b : Char} {as bs : List Char} :
    lexCmp (a :: as) (b :: bs) = .lt ↔
      a.toNat < b.toNat ∨ (a.toNat = b.toNat ∧ lexCmp as bs = .lt) := by
  simp only [lexCmp]
  split_ifs with h1 h2
  · simp [h1]
  · simp
    omega
  · have h : a.toNat = b.toNat := by omega
    simp [h]

theorem lexCmp_eq_iff : ∀ {x y : List Char}, lexCmp x y = .eq ↔ x = y := by
  intro x
  induction x with
  | nil => intro y; cases y <;> simp [lexCmp]
  | cons a as ih =>
    intro y
    cases y with
    | nil => simp [lexCmp]
    | cons b bs =>
      simp only [lexCmp]
      split_ifs with h1 h2
      · simp
        rintro rfl
        omega
      · simp
        rintro rfl
        omega
      · have h : a = b := char_eq_of_toNat_eq (by omega)
        subst h
        simp [ih]

theorem lexCmp_swap : ∀ (x y : List Char), (lexCmp x y).swap = lexCmp y x := by
  intro x
  induction x with
  | nil => intro y; cases y <;> simp [lexCmp, Ordering.swap]
  | cons a as ih =>
    intro y
    cases y with
    | nil => simp [lexCmp, Ordering.swap]
    | cons b bs =>
      by_cases h1 : a.toNat < b.toNat
      · have h2 : ¬ b.toNat < a.toNat := by omega
        simp [lexCmp, h1, h2, Ordering.swap]
      · by_cases h2 : b.toNat < a.toNat
        · simp [lexCmp, h1, h2, Ordering.swap]
        · simp [lexCmp, h1, h2, ih]

theorem lexCmp_lt_trans : ∀ {x y z : List Char},
    lexCmp x y = .lt → lexCmp y z = .lt → lexCmp x z = .lt := by
  intro x
  induction x with
  | nil =>
    intro y z hxy hyz
    cases y with
    | nil => exact hyz
    | cons b bs =>
      cases z with
      | nil => simp [lexCmp] at hyz
      | cons c cs => simp [lexCmp]
  | cons a as ih =>
    intro y z hxy hyz
    cases y with
    | nil => simp [lexCmp] at hxy
    | cons b bs =>
      cases z with
      | nil => simp [lexCmp] at hyz
      | cons c cs =>
        rw [lexCmp_cons_lt] at hxy hyz ⊢
        rcases hxy with h1 | ⟨h1, h1'⟩
        · rcases hyz with h2 | ⟨h2, h2'⟩
          · exact Or.inl (by omega)
          · exact Or.inl (by omega)
        · rcases hyz with h2 | ⟨h2, h2'⟩
          · exact Or.inl (by omega)
          · exact Or.inr ⟨by omega, ih h1' h2'⟩

theorem lexCmp_le_trans {x y z : List Char}
    (hxy : lexCmp x y ≠ .gt) (hyz : lexCmp y z ≠ .gt) : lexCmp x z ≠ .gt := by
  rcases h1 : lexCmp x y with _ | _ | _
  · rcases h2 : lexCmp y z with _ | _ | _
    · simp [lexCmp_lt_trans h1 h2]
    · rw [lexCmp_eq_iff] at h2; subst h2; simp [h1]
    · exact absurd h2 hyz
  · rw [lexCmp_eq_iff] at h1; subst h1; exact hyz
  · exact absurd h1 hxy

/-- Python tuple comparison on (key, value) string pairs:
key compared first, value breaks ties. -/
def pairCmp (a b : String × String) : Ordering :=
  match lexCmp a.1.data b.1.data with
  | .lt => .lt
  | .gt => .gt
  | .eq => lexCmp a.2.data b.2.data

/-- Python tuple less-or-equal on (key, value) string pairs, as used by
sorted() over the items of canon_query. -/
def pairLe (a b : String × String) : Prop := pairCmp a b ≠ .gt

instance : DecidableRel pairLe := fun _ _ =>
  inferInstanceAs (Decidable (_ ≠ _))

theorem pairCmp_swap (a b : String × String) :
    (pairCmp a b).swap = pairCmp b a := by
  unfold pairCmp
  rw [← lexCmp_swap a.1.data b.1.data]
  rcases lexCmp a.1.data b.1.data with _ | _ | _
  · rfl
  · rw [← lexCmp_swap a.2.data b.2.data]
    rfl
  · rfl

instance : IsTotal (String × String) pairLe where
  total a b := by
    unfold pairLe
    rw [← pairCmp_swap a b]
    rcases pairCmp a b with _ | _ | _ <;> decide

instance : IsTrans (String × String) pairLe where
  trans a b c hab hbc := by
    unfold pairLe pairCmp at *
    rcases h1 : lexCmp a.1.data b.1.data with _ | _ | _ <;> rw [h1] at hab
    · rcases h2 : lexCmp b.1.data c.1.data with _ | _ | _ <;> rw [h2] at hbc
      · rw [lexCmp_lt_trans h1 h2]
        exact fun h => Ordering.noConfusion h
      · rw [lexCmp_eq_iff] at h2
        rw [← h2, h1]
        exact fun h => Ordering.noConfusion h
      · exact absurd rfl hbc
    · rw [lexCmp_eq_iff] at h1
      rw [h1]
      rcases h2 : lexCmp b.1.data c.1.data with _ | _ | _ <;> rw [h2] at hbc
      · exact fun h => Ordering.noConfusion h
      · exact lexCmp_le_trans hab hbc
      · exact absurd rfl hbc
    · exact absurd rfl hab

instance : IsAntisymm (String × String) pairLe where
  antisymm a b hab hba := by
    unfold pairLe at hab hba
    rw [← pairCmp_swap a b] at hba
    unfold pairCmp at hab hba
    rcases h1 : lexCmp a.1.data b.1.data with _ | _ | _ <;> rw [h1] at hab hba
    · exact absurd rfl hba
    · rw [lexCmp_eq_iff] at h1
      rcases h2 : lexCmp a.2.data b.2.data with _ | _ | _ <;> rw [h2] at hab hba
      · exact absurd rfl hba
      · rw [lexCmp_eq_iff] at h2
        exact Prod.ext (string_ext h1) (string_ext h2)
      · exact absurd rfl hab
    · exact absurd rfl hab

/-- Python "&".join. -/
def joinAmp : List String → String
  | [] => ""
  | [s] => s
  | s :: rest => s ++ "&" ++ joinAmp rest

/-- The (key, str(value)) pairs of a mapping, sorted by Python tuple order:
`sorted((k, str(v)) for k, v in params.items())` in canon_query. -/
def sortedItems (params : Params) : List (String × String) :=
  (params.map (fun kv => (kv.1, pvStr kv.2))).insertionSort pairLe

/-- src/app.py canon_query: canonical signing string, key=value pairs
sorted by key and joined with the ampersand. -/
def canon_query (params : Params) : String :=
  joinAmp ((sortedItems params).map (fun kv => kv.1 ++ "=" ++ kv.2))

example : canon_query [("store_id", .str "045"), ("order_id", .str "123456")]
    = "order_id=123456&store_id=045" := by decide

example : canon_query [] = "" := rfl

/-! ### UTF-8 encoding

Python str.encode("utf-8"), used by make_sig on the secret and the
canonical string, and by urllib quoting on keys and values. -/

/-- UTF-8 encoding of one code point. -/
def utf8Encode (c : Char) : List Nat :=
  let n := c.toNat
  if n < 128 then [n]
  else if n < 2048 then
    [192 ||| (n >>> 6), 128 ||| (n &&& 63)]
  else if n < 65536 then
    [224 ||| (n >>> 12), 128 ||| ((n >>> 6) &&& 63), 128 ||| (n &&& 63)]
  else
    [240 ||| (n >>> 18), 128 ||| ((n >>> 12) &&& 63),
     128 ||| ((n >>> 6) &&& 63), 128 ||| (n &&& 63)]

/-- UTF-8 byte sequence of a string: Python s.encode("utf-8"). -/
def strUtf8 (s : String) : List Nat := s.data.flatMap utf8Encode

/-! ### SHA-256 and HMAC-SHA256

Embedding of hashlib.sha256 and hmac.new(key, msg, hashlib.sha256):
the standard FIPS 180-4 / RFC 2104 algorithms, over byte lists with
32-bit words as Nats reduced mod 2^32. -/

/-- Truncation to a 32-bit word. -/
def w32 (n : Nat) : Nat := n % 4294967296

/-- Right rotation of a 32-bit word. -/
def rotr (n x : Nat) : Nat := w32 ((x >>> n) ||| (x <<< (32 - n)))

/-- The 64 SHA-256 round constants of FIPS 180-4, in decimal. -/
def shaK : List Nat :=
  [1116352408, 1899447441, 3049323471, 3921009573, 961987163, 1508970993,
   2453635748, 2870763221, 3624381080, 310598401, 607225278, 1426881987,
   1925078388, 2162078206, 2614888103, 3248222580, 3835390401, 4022224774,
   264347078, 604807628, 770255983, 1249150122, 1555081692, 1996064986,
   2554220882, 2821834349, 2952996808, 3210313671, 3336571891, 3584528711,
   113926993, 338241895, 666307205, 773529912, 1294757372, 1396182291,
   1695183700, 1986661051, 2177026350, 2456956037, 2730485921, 2820302411,
   3259730800, 3345764771, 3516065817, 3600352804, 4094571909, 275423344,
   430227734, 506948616, 659060556, 883997877, 958139571, 1322822218,
   1537002063, 1747873779, 1955562222, 2024104815, 2227730452, 2361852424,
   2428436474, 2756734187, 3204031479, 3329325298]

/-- The SHA-256 initial hash value of FIPS 180-4, in decimal. -/
def shaH0 : List Nat :=
  [1779033703, 3144134277, 1013904242, 2773480762,
   1359893119, 2600822924, 528734635, 1541459225]

/-- Big-endian byte decomposition of a number into k bytes. -/
def beBytes (k n : Nat) : List Nat :=
  (List.range k).map (fun i => (n >>> (8 * (k - 1 - i))) % 256)

/-- The i-th big-endian 32-bit word of a 64-byte block. -/
def wordAt (block : List Nat) (i : Nat) : Nat :=
  (block.getD (4 * i) 0) <<< 24 ||| (block.getD (4 * i + 1) 0) <<< 16 |||
    (block.getD (4 * i + 2) 0) <<< 8 ||| block.getD (4 * i + 3) 0

def smallSigma0 (x : Nat) : Nat := (rotr 7 x) ^^^ (rotr 18 x) ^^^ (x >>> 3)

def smallSigma1 (x : Nat) : Nat := (rotr 17 x) ^^^ (rotr 19 x) ^^^ (x >>> 10)

def bigSigma0 (x : Nat) : Nat := (rotr 2 x) ^^^ (rotr 13 x) ^^^ (rotr 22 x)

def bigSigma1 (x : Nat) : Nat := (rotr 6 x) ^^^ (rotr 11 x) ^^^ (rotr 25 x)

/-- The 64-entry SHA-256 message schedule of one 64-byte block. -/
def schedule (block : List Nat) : List Nat :=
  (List.range 48).foldl
    (fun ws _ =>
      let n := ws.length
      ws ++ [w32 (ws.getD (n - 16) 0 + smallSigma0 (ws.getD (n - 15) 0) +
                  ws.getD (n - 7) 0 + smallSigma1 (ws.getD (n - 2) 0))])
    ((List.range 16).map (wordAt block))

/-- One SHA-256 compression step (one round). -/
def shaRound (st : Nat × Nat × Nat × Nat × Nat × Nat × Nat × Nat)
    (kw : Nat × Nat) : Nat × Nat × Nat × Nat × Nat × Nat × Nat × Nat :=
  let (a, b, c, d, e, f, g, h) := st
  let ch := (e &&& f) ^^^ ((e ^^^ 4294967295) &&& g)
  let maj := (a &&& b) ^^^ (a &&& c) ^^^ (b &&& c)
  let t1 := w32 (h + bigSigma1 e + ch + kw.1 + kw.2)
  let t2 := w32 (bigSigma0 a + maj)
  (w32 (t1 + t2), a, b, c, w32 (d + t1), e, f, g)

/-- SHA-256 compression of one 64-byte block into the 8-word state. -/
def compressWords (hs : List Nat) (block : List Nat) : List Nat :=
  match hs with
  | [h0, h1, h2, h3, h4, h5, h6, h7] =>
    let (a, b, c, d, e, f, g, h) :=
      (shaK.zip (schedule block)).foldl shaRound (h0, h1, h2, h3, h4, h5, h6, h7)
    [w32 (h0 + a), w32 (h1 + b), w32 (h2 + c), w32 (h3 + d),
     w32 (h4 + e), w32 (h5 + f), w32 (h6 + g), w32 (h7 + h)]
  | _ => hs

/-- SHA-256 padding: 0x80, zeros, and the 64-bit big-endian bit length. -/
def padMsg (ms : List Nat) : List Nat :=
  ms ++ 128 :: List.replicate ((119 - ms.length % 64) % 64) 0 ++
    beBytes 8 (8 * ms.length)

/-- Split a byte list into 64-byte chunks, with an explicit fuel bound
(the list length suffices, since each step consumes 64 bytes). -/
def chunks64F : Nat → List Nat → List (List Nat)
  | 0, _ => []
  | _, [] => []
  | fuel + 1, l => l.take 64 :: chunks64F fuel (l.drop 64)

/-- Split a byte list into 64-byte chunks. -/
def chunks64 (l : List Nat) : List (List Nat) := chunks64F l.length l

/-- hashlib.sha256: digest bytes of a byte-list message. -/
def sha256 (msg : List Nat) : List Nat :=
  ((chunks64 (padMsg msg)).foldl compressWords shaH0).flatMap (beBytes 4)

/-- hmac.new(key, msg, hashlib.sha256).digest(): RFC 2104 with a 64-byte
block, ipad 0x36 and opad 0x5c, hashing keys longer than one block. -/
def hmacSha256 (key msg : List Nat) : List Nat :=
  let k0 := if 64 < key.length then sha256 key else key
  let kp := k0 ++ List.replicate (64 - k0.length) 0
  sha256 ((kp.map (fun b => b ^^^ 92)) ++
    sha256 ((kp.map (fun b => b ^^^ 54)) ++ msg))

/-- The sixteen lowercase hexadecimal digits. -/
def hexLowerChars : List Char := "0123456789abcdef".data

def hexLowerChar (n : Nat) : Char := hexLowerChars.getD n '0'

/-- The two lowercase hex digits of a byte, as in hexdigest(). -/
def byteHexLower (b : Nat) : List Char :=
  [hexLowerChar ((b / 16) % 16), hexLowerChar (b % 16)]

/-- Lowercase hex string of a byte list: bytes.hex() / hexdigest(). -/
def bytesToHexLower (bs : List Nat) : String := ⟨bs.flatMap byteHexLower⟩

/-- src/app.py make_sig: HMAC-SHA256 over the UTF-8 bytes of the
canonical string, keyed by the UTF-8 bytes of the secret, as lowercase
hexadecimal text. -/
def make_sig (secret : String) (params : Params) : String :=
  bytesToHexLower (hmacSha256 (strUtf8 secret) (strUtf8 (canon_query params)))

/-! ### URL building

Embedding of build_url and of the urllib.parse.urlencode call
`urlencode(params, doseq=False, safe="-_.:")`: each key and str-coerced
value is quoted per UTF-8 byte (space to +, bytes outside the safe set to
%XX with uppercase hex), pairs joined as key=value with ampersands, in
insertion order. -/

/-- Python str.isspace code points (the set stripped by str.strip()). -/
def pyIsSpace (c : Char) : Bool :=
  [9, 10, 11, 12, 13, 28, 29, 30, 31, 32, 133, 160, 5760,
   8192, 8193, 8194, 8195, 8196, 8197, 8198, 8199, 8200, 8201, 8202,
   8232, 8233, 8239, 8287, 12288].contains c.toNat

/-- Python str.strip() on a character list. -/
def pyStripData (l : List Char) : List Char :=
  ((l.dropWhile pyIsSpace).reverse.dropWhile pyIsSpace).reverse

/-- Python str.strip(). -/
def pyStrip (s : String) : String := ⟨pyStripData s.data⟩

/-- Python str.rstrip(single char) on a character list. -/
def rstripCharData (sl : Char) (l : List Char) : List Char :=
  (l.reverse.dropWhile (fun c => c == sl)).reverse

/-- The domain normalization of build_url: domain.strip().rstrip(slash). -/
def domainNorm (s : String) : String :=
  ⟨rstripCharData '/' (pyStripData s.data)⟩

/-- The bytes urllib quote_plus leaves unquoted with safe="-_.:":
ALPHA, DIGIT, underscore, period, hyphen, tilde, and colon. -/
def isSafeByte (b : Nat) : Bool :=
  (48 ≤ b && b ≤ 57) || (65 ≤ b && b ≤ 90) || (97 ≤ b && b ≤ 122) ||
    b == 45 || b == 46 || b == 95 || b == 126 || b == 58

/-- The sixteen uppercase hexadecimal digits. -/
def hexUpperChars : List Char := "0123456789ABCDEF".data

def hexUpperChar (n : Nat) : Char := hexUpperChars.getD n '0'

/-- urllib quote_plus treatment of one UTF-8 byte: space becomes +, a
safe byte stays itself, anything else becomes %XX (uppercase hex). -/
def quoteByte (b : Nat) : List Char :=
  if b == 32 then ['+']
  else if isSafeByte b then [Char.ofNat b]
  else ['%', hexUpperChar ((b / 16) % 16), hexUpperChar (b % 16)]

/-- urllib quote_plus with safe="-_.:" over the UTF-8 bytes of a string. -/
def quotePlus (s : String) : String := ⟨(strUtf8 s).flatMap quoteByte⟩

/-- urllib urlencode(params, doseq=False, safe="-_.:"): quoted key=value
pairs joined with ampersands, in insertion order. -/
def urlencode (params : Params) : String :=
  joinAmp (params.map (fun kv => quotePlus kv.1 ++ "=" ++ quotePlus (pvStr kv.2)))

/-- src/app.py build_url: https base from the stripped domain and survey
code; the encoded query appended after a question mark only when the
query string is non-empty (Python string truthiness). -/
def build_url (domain survey_code : String) (params : Params) : String :=
  let base := "https://" ++ domainNorm domain ++ "/r/" ++ pyStrip survey_code
  let qs := urlencode params
  if qs = "" then base else base ++ "?" ++ qs

/-! ### Module top level (src/app.py lines 95-109)

The parameter mapping is assembled from the form fields: store_id and
order_id when non-empty (Python string truthiness), ts when the checkbox
is set, and sig when signing is requested and the secret is non-empty.
The timestamp text is an input here (it comes from the clock). -/

/-- The params dict right before the signing step (lines 96-102). -/
def assemble_params (store_id order_id : String) (add_ts : Bool)
    (ts : String) : Params :=
  (if store_id ≠ "" then [("store_id", PValue.str store_id)] else []) ++
    (if order_id ≠ "" then [("order_id", PValue.str order_id)] else []) ++
    (if add_ts then [("ts", PValue.str ts)] else [])

/-- The params dict after the conditional signing step (lines 104-106):
`if use_sig and secret: params[sig] = make_sig(secret, params)`. The sig
key is never among the assembled keys, so the dict update is an append. -/
def final_params (store_id order_id : String) (add_ts : Bool) (ts : String)
    (use_sig : Bool) (secret : String) : Params :=
  let p := assemble_params store_id order_id add_ts ts
  if use_sig = true ∧ secret ≠ "" then
    p ++ [("sig", PValue.str (make_sig secret p))]
  else p

/-- The final URL (line 109): build_url(domain, survey_code, params). -/
def url_final (domain survey_code store_id order_id : String)
    (add_ts : Bool) (ts : String) (use_sig : Bool) (secret : String) : String :=
  build_url domain survey_code
    (final_params store_id order_id add_ts ts use_sig secret)

example :
    build_url "pt.surveymonkey.com" "9B9GS555"
      [("store_id", .str "045"), ("order_id", .str "123456")]
    = "https://pt.surveymonkey.com/r/9B9GS555?store_id=045&order_id=123456" := by
  decide

example :
    build_url " pt.surveymonkey.com/ " "9B9GS555" []
    = "https://pt.surveymonkey.com/r/9B9GS555" := by decide

/-! ### Helper lemmas -/

/-- Sorting with a total, transitive, antisymmetric relation determines
the sorted list from the multiset of elements alone. -/
theorem canon_query_perm {p1 p2 : Params} (h : p1.Perm p2) :
    canon_query p1 = canon_query p2 := by
  unfold canon_query sortedItems
  have hsort :
      (p1.map (fun kv => (kv.1, pvStr kv.2))).insertionSort pairLe
        = (p2.map (fun kv => (kv.1, pvStr kv.2))).insertionSort pairLe := by
    exact List.eq_of_perm_of_sorted
      (((List.perm_insertionSort pairLe _).trans
        (h.map _)).trans (List.perm_insertionSort pairLe _).symm)
      (List.sorted_insertionSort pairLe _)
      (List.sorted_insertionSort pairLe _)
  rw [hsort]

theorem pairLe_key_le {a b : String × String} (h : pairLe a b) :
    lexCmp a.1.data b.1.data ≠ .gt := by
  unfold pairLe pairCmp at h
  rcases h1 : lexCmp a.1.data b.1.data with _ | _ | _ <;> rw [h1] at h
  · exact fun hc => Ordering.noConfusion hc
  · exact fun hc => Ordering.noConfusion hc
  · exact absurd rfl h

/-! ### C1, C2, C9: canonicalizer and determinism -/

/-- C1: for every two parameter mappings with identical key/value content
(permutations of each other), canon_query produces byte-identical output;
in particular both insertion orders of the store_id/order_id example
canonicalize to order_id=123456&store_id=045. -/
theorem canon_query_order_independent :
    (∀ p1 p2 : Params, p1.Perm p2 → canon_query p1 = canon_query p2) ∧
    canon_query [("store_id", .str "045"), ("order_id", .str "123456")]
      = "order_id=123456&store_id=045" ∧
    canon_query [("order_id", .str "123456"), ("store_id", .str "045")]
      = "order_id=123456&store_id=045" :=
  ⟨fun _ _ h => canon_query_perm h, by decide, by decide⟩

/-- Witness for C1 at the two concrete insertion orders of the example. -/
theorem canon_query_order_independent_witness :
    ([("store_id", PValue.str "045"), ("order_id", PValue.str "123456")] : Params).Perm
        [("order_id", PValue.str "123456"), ("store_id", PValue.str "045")] ∧
    canon_query [("store_id", PValue.str "045"), ("order_id", PValue.str "123456")]
      = canon_query [("order_id", PValue.str "123456"), ("store_id", PValue.str "045")] :=
  ⟨by decide, canon_query_order_independent.1 _ _ (by decide)⟩

/-- C2: canon_query coerces each value to text (pvStr), sorts the entries
(the sorted items are a permutation of the coerced entries, and their
keys are ascending in code-point lexicographic order), and joins them as
key=value with ampersand separators and no encoding; the empty mapping
gives the empty string. -/
theorem canon_query_spec :
    ∀ p : Params,
      (sortedItems p).Perm (p.map (fun kv => (kv.1, pvStr kv.2))) ∧
      ((sortedItems p).map Prod.fst).Sorted
        (fun a b : String => lexCmp a.data b.data ≠ .gt) ∧
      canon_query p = joinAmp ((sortedItems p).map (fun kv => kv.1 ++ "=" ++ kv.2)) ∧
      canon_query [] = "" := by
  intro p
  refine ⟨List.perm_insertionSort pairLe _, ?_, rfl, rfl⟩
  have hs : (sortedItems p).Sorted pairLe :=
    List.sorted_insertionSort pairLe _
  exact List.pairwise_map.mpr (hs.imp pairLe_key_le)

/-- C9: make_sig is deterministic: equal secrets and equal parameter
mappings always give the same output. -/
theorem make_sig_deterministic :
    ∀ (S : String) (P : Params),
      make_sig S P = make_sig S P ∧
      ∀ (S2 : String) (P2 : Params), S = S2 → P = P2 → make_sig S P = make_sig S2 P2 :=
  fun _ _ => ⟨rfl, fun _ _ hS hP => hS ▸ hP ▸ rfl⟩

/-- Witness for C9 at a concrete secret and mapping. -/
theorem make_sig_deterministic_witness :
    make_sig "k" [("a", PValue.str "1")] = make_sig "k" [("a", PValue.str "1")] :=
  (make_sig_deterministic "k" [("a", PValue.str "1")]).2 "k" [("a", PValue.str "1")] rfl rfl

/-! ### C3: signature format -/

theorem compressWords_length {hs : List Nat} (block : List Nat)
    (h : hs.length = 8) : (compressWords hs block).length = 8 := by
  unfold compressWords
  split
  · split
    rfl
  · exact h

theorem foldl_compressWords_length (blocks : List (List Nat)) :
    ∀ hs : List Nat, hs.length = 8 → (blocks.foldl compressWords hs).length = 8 := by
  induction blocks with
  | nil => intro hs h; exact h
  | cons b t ih => intro hs h; exact ih _ (compressWords_length b h)

theorem length_flatMap_beBytes (ws : List Nat) :
    (ws.flatMap (beBytes 4)).length = 4 * ws.length := by
  induction ws with
  | nil => rfl
  | cons w t ih =>
    simp [List.flatMap_cons, beBytes, ih]
    omega

theorem sha256_length (msg : List Nat) : (sha256 msg).length = 32 := by
  unfold sha256
  rw [length_flatMap_beBytes, foldl_compressWords_length _ shaH0 (by rfl)]

theorem hmacSha256_length (key msg : List Nat) :
    (hmacSha256 key msg).length = 32 := by
  unfold hmacSha256
  exact sha256_length _

theorem hexLowerChar_contains (n : Nat) :
    hexLowerChars.contains (hexLowerChar n) = true := by
  by_cases h : n < 16
  · interval_cases n <;> decide
  · unfold hexLowerChar
    rw [List.getD_eq_default]
    · decide
    · have : hexLowerChars.length = 16 := by decide
      omega

theorem bytesToHexLower_length (bs : List Nat) :
    (bytesToHexLower bs).length = 2 * bs.length := by
  show (bs.flatMap byteHexLower).length = 2 * bs.length
  induction bs with
  | nil => rfl
  | cons b t ih =>
    simp [List.flatMap_cons, byteHexLower, ih]
    omega

theorem bytesToHexLower_all_hex (bs : List Nat) :
    (bytesToHexLower bs).data.all (fun c => hexLowerChars.contains c) = true := by
  rw [List.all_eq_true]
  intro c hc
  rw [show (bytesToHexLower bs).data = bs.flatMap byteHexLower from rfl,
    List.mem_flatMap] at hc
  obtain ⟨b, _, hcb⟩ := hc
  unfold byteHexLower at hcb
  simp only [List.mem_cons, List.not_mem_nil, or_false] at hcb
  rcases hcb with h | h <;> rw [h] <;> exact hexLowerChar_contains _

/-- C3: make_sig is the lowercase hexadecimal encoding of the
HMAC-SHA256 of the UTF-8 bytes of the canonical string, keyed by the
UTF-8 bytes of the secret; the output is 64 characters, all of them
lowercase hex digits. -/
theorem make_sig_hmac_spec :
    ∀ (secret : String) (p : Params),
      make_sig secret p
          = bytesToHexLower (hmacSha256 (strUtf8 secret) (strUtf8 (canon_query p))) ∧
      (make_sig secret p).length = 64 ∧
      (make_sig secret p).data.all (fun c => hexLowerChars.contains c) = true := by
  intro secret p
  refine ⟨rfl, ?_, bytesToHexLower_all_hex _⟩
  show (bytesToHexLower _).length = 64
  rw [bytesToHexLower_length, hmacSha256_length]

/-! ### C4: signature sensitivity -/

set_option maxRecDepth 100000

/-- C4 counterexample: two distinct parameter mappings under the same
secret with the same signature. A value containing ampersand and equals
makes the two mappings canonicalize identically, so their signatures
coincide, refuting that no two distinct mappings collide. -/
theorem make_sig_collision :
    ([("a", PValue.str "1"), ("b", PValue.str "2")] : Params)
        ≠ [("a", PValue.str "1&b=2")] ∧
    make_sig "k" [("a", PValue.str "1"), ("b", PValue.str "2")]
        = make_sig "k" [("a", PValue.str "1&b=2")] := by
  constructor
  · decide
  · unfold make_sig
    rw [show canon_query [("a", PValue.str "1"), ("b", PValue.str "2")]
        = canon_query [("a", PValue.str "1&b=2")] from by decide]

/-- C4 (amended): the signature depends only on the canonical string:
mappings with equal canonical strings yield equal signatures under the
same secret, so distinct mappings whose values contain ampersand or
equals characters can collide; sensitivity to a changed value holds only
when the canonical strings differ (shown here on a concrete instance),
as a cryptographic rather than a logical guarantee. -/
theorem make_sig_canon_dependence :
    (∀ (s : String) (p1 p2 : Params),
        canon_query p1 = canon_query p2 → make_sig s p1 = make_sig s p2) ∧
    make_sig "k" [("a", PValue.str "1")] ≠ make_sig "k" [("a", PValue.str "2")] := by
  constructor
  · intro s p1 p2 h
    unfold make_sig
    rw [h]
  · decide

/-- Witness for C4 (amended) at two permuted concrete mappings. -/
theorem make_sig_canon_dependence_witness :
    canon_query [("x", PValue.str "1"), ("y", PValue.str "2")]
        = canon_query [("y", PValue.str "2"), ("x", PValue.str "1")] ∧
    make_sig "s" [("x", PValue.str "1"), ("y", PValue.str "2")]
        = make_sig "s" [("y", PValue.str "2"), ("x", PValue.str "1")] :=
  ⟨by decide, make_sig_canon_dependence.1 "s" _ _ (by decide)⟩

/-! ### C5: URL building and query encoding -/

theorem ne_empty_of_length_pos {s : String} (h : 0 < s.length) : s ≠ "" := by
  intro he
  rw [he] at h
  exact absurd h (by decide)

theorem joinAmp_cons_length (s : String) (rest : List String) :
    s.length ≤ (joinAmp (s :: rest)).length := by
  cases rest with
  | nil => exact le_refl _
  | cons b t =>
    show s.length ≤ (s ++ "&" ++ joinAmp (b :: t)).length
    rw [String.length_append, String.length_append]
    omega

theorem urlencode_ne_empty {p : Params} (h : p ≠ []) : urlencode p ≠ "" := by
  rcases p with _ | ⟨kv, rest⟩
  · exact absurd rfl h
  · apply ne_empty_of_length_pos
    show 0 < (joinAmp ((quotePlus kv.1 ++ "=" ++ quotePlus (pvStr kv.2)) ::
      rest.map (fun kv => quotePlus kv.1 ++ "=" ++ quotePlus (pvStr kv.2)))).length
    have h1 : 0 < (quotePlus kv.1 ++ "=" ++ quotePlus (pvStr kv.2)).length := by
      rw [String.length_append, String.length_append]
      have he : ("=" : String).length = 1 := rfl
      omega
    exact lt_of_lt_of_le h1 (joinAmp_cons_length _ _)

/-- C5: build_url yields https followed by the normalized domain, the /r/
segment and the survey code, with a question mark and the percent-encoded
query appended exactly when the mapping is non-empty; the worked example
holds, and the encoding leaves hyphen, underscore, period and colon (and
space, as plus) unescaped while percent-encoding the reserved characters. -/
theorem build_url_spec :
    ∀ (d c : String) (p : Params),
      (p = [] → build_url d c p = "https://" ++ domainNorm d ++ "/r/" ++ pyStrip c) ∧
      (p ≠ [] → build_url d c p
          = "https://" ++ domainNorm d ++ "/r/" ++ pyStrip c ++ "?" ++ urlencode p) ∧
      build_url "pt.surveymonkey.com" "9B9GS555"
          [("store_id", PValue.str "045"), ("order_id", PValue.str "123456")]
        = "https://pt.surveymonkey.com/r/9B9GS555?store_id=045&order_id=123456" ∧
      quotePlus "-" = "-" ∧ quotePlus "_" = "_" ∧ quotePlus "." = "." ∧
      quotePlus ":" = ":" ∧ quotePlus " " = "+" ∧ quotePlus "/" = "%2F" ∧
      quotePlus "?" = "%3F" ∧ quotePlus "#" = "%23" ∧ quotePlus "&" = "%26" ∧
      quotePlus "=" = "%3D" ∧ quotePlus "+" = "%2B" ∧ quotePlus "$" = "%24" ∧
      quotePlus "@" = "%40" ∧ quotePlus ";" = "%3B" ∧ quotePlus "," = "%2C" := by
  intro d c p
  refine ⟨?_, ?_, ?_⟩
  · rintro rfl
    rfl
  · intro h
    show (if urlencode p = "" then "https://" ++ domainNorm d ++ "/r/" ++ pyStrip c
        else "https://" ++ domainNorm d ++ "/r/" ++ pyStrip c ++ "?" ++ urlencode p)
      = "https://" ++ domainNorm d ++ "/r/" ++ pyStrip c ++ "?" ++ urlencode p
    rw [if_neg (urlencode_ne_empty h)]
  · decide

/-- Witness for C5: the empty and non-empty query branches at concrete
inputs. -/
theorem build_url_spec_witness :
    build_url "pt.surveymonkey.com" "9B9GS555" []
        = "https://" ++ domainNorm "pt.surveymonkey.com" ++ "/r/" ++ pyStrip "9B9GS555" ∧
    build_url "pt.surveymonkey.com" "9B9GS555" [("store_id", PValue.str "045")]
        = "https://" ++ domainNorm "pt.surveymonkey.com" ++ "/r/" ++ pyStrip "9B9GS555"
            ++ "?" ++ urlencode [("store_id", PValue.str "045")] :=
  ⟨(build_url_spec "pt.surveymonkey.com" "9B9GS555" []).1 rfl,
   (build_url_spec "pt.surveymonkey.com" "9B9GS555" [("store_id", PValue.str "045")]).2.1
     (by decide)⟩

/-! ### C6: whitespace and slash tolerance of build_url -/

theorem dropWhile_append_forall {α : Type} {p : α → Bool} {w l : List α}
    (hw : ∀ x ∈ w, p x = true) : (w ++ l).dropWhile p = l.dropWhile p := by
  induction w with
  | nil => rfl
  | cons a t ih =>
    have ha : p a = true := hw a (List.mem_cons_self a t)
    rw [List.cons_append, List.dropWhile_cons, if_pos ha]
    exact ih fun x hx => hw x (List.mem_cons_of_mem a hx)

theorem dropWhile_headI_false {α : Type} [Inhabited α] (p : α → Bool) (l : List α)
    (h : p l.headI = false) : l.dropWhile p = l := by
  cases l with
  | nil => rfl
  | cons a t =>
    have ha : ¬ (p a = true) := by
      rw [show (a :: t).headI = a from rfl] at h
      simp [h]
    rw [List.dropWhile_cons, if_neg ha]

theorem headI_append {α : Type} [Inhabited α] {l : List α} (x : List α)
    (h : l ≠ []) : (l ++ x).headI = l.headI := by
  cases l with
  | nil => exact absurd rfl h
  | cons a t => rfl

/-- str.strip() removes exactly an all-whitespace prefix and suffix from
around a block that starts and ends with non-whitespace. -/
theorem pyStripData_pad (w1 w2 x : List Char)
    (hw1 : ∀ c ∈ w1, pyIsSpace c = true) (hw2 : ∀ c ∈ w2, pyIsSpace c = true)
    (hne : x ≠ []) (hh : pyIsSpace x.headI = false)
    (hl : pyIsSpace x.reverse.headI = false) :
    pyStripData (w1 ++ (x ++ w2)) = x := by
  unfold pyStripData
  rw [dropWhile_append_forall hw1,
    dropWhile_headI_false pyIsSpace (x ++ w2) (by rw [headI_append w2 hne]; exact hh),
    List.reverse_append,
    dropWhile_append_forall (fun c hc => hw2 c (List.mem_reverse.mp hc)),
    dropWhile_headI_false pyIsSpace x.reverse hl]
  exact List.reverse_reverse x

theorem pyStripData_self (x : List Char) (hne : x ≠ [])
    (hh : pyIsSpace x.headI = false) (hl : pyIsSpace x.reverse.headI = false) :
    pyStripData x = x := by
  have h0 := pyStripData_pad [] [] x (by simp) (by simp) hne hh hl
  simpa using h0

theorem rstripCharData_append_replicate (d : List Char) (k : Nat)
    (hs : d.reverse.headI ≠ '/') :
    rstripCharData '/' (d ++ List.replicate k '/') = d := by
  unfold rstripCharData
  rw [List.reverse_append, List.reverse_replicate,
    dropWhile_append_forall (fun c hc => by
      rw [(List.mem_replicate.mp hc).2]
      rfl),
    dropWhile_headI_false (fun c => c == '/') d.reverse (beq_eq_false_iff_ne.mpr hs)]
  exact List.reverse_reverse d

/-- The domain normalization of build_url removes an all-whitespace
prefix, an all-whitespace suffix, and the trailing slashes before it. -/
theorem domainNorm_pad (w1 w2 : List Char) (k : Nat) (d : List Char)
    (hw1 : ∀ c ∈ w1, pyIsSpace c = true) (hw2 : ∀ c ∈ w2, pyIsSpace c = true)
    (hne : d ≠ []) (hh : pyIsSpace d.headI = false)
    (hl : pyIsSpace d.reverse.headI = false) (hs : d.reverse.headI ≠ '/') :
    domainNorm ⟨w1 ++ ((d ++ List.replicate k '/') ++ w2)⟩ = domainNorm ⟨d⟩ := by
  have hxne : d ++ List.replicate k '/' ≠ [] := by
    intro hcontra
    exact hne (List.append_eq_nil.mp hcontra).1
  have hxh : pyIsSpace (d ++ List.replicate k '/').headI = false := by
    rw [headI_append _ hne]
    exact hh
  have hxl : pyIsSpace (d ++ List.replicate k '/').reverse.headI = false := by
    rw [List.reverse_append, List.reverse_replicate]
    cases k with
    | zero => simpa using hl
    | succ n =>
      rw [List.replicate_succ]
      show pyIsSpace '/' = false
      decide
  unfold domainNorm
  refine congrArg String.mk ?_
  rw [show (⟨w1 ++ ((d ++ List.replicate k '/') ++ w2)⟩ : String).data
      = w1 ++ ((d ++ List.replicate k '/') ++ w2) from rfl]
  rw [pyStripData_pad w1 w2 _ hw1 hw2 hxne hxh hxl,
    rstripCharData_append_replicate d k hs]
  rw [show (⟨d⟩ : String).data = d from rfl]
  rw [pyStripData_self d hne hh hl]
  have hz := rstripCharData_append_replicate d 0 hs
  simpa using hz.symm

theorem pyStrip_pad (w1 w2 x : List Char)
    (hw1 : ∀ c ∈ w1, pyIsSpace c = true) (hw2 : ∀ c ∈ w2, pyIsSpace c = true)
    (hne : x ≠ []) (hh : pyIsSpace x.headI = false)
    (hl : pyIsSpace x.reverse.headI = false) :
    pyStrip ⟨w1 ++ (x ++ w2)⟩ = pyStrip ⟨x⟩ := by
  unfold pyStrip
  refine congrArg String.mk ?_
  rw [show (⟨w1 ++ (x ++ w2)⟩ : String).data = w1 ++ (x ++ w2) from rfl,
    show (⟨x⟩ : String).data = x from rfl,
    pyStripData_pad w1 w2 x hw1 hw2 hne hh hl,
    pyStripData_self x hne hh hl]

/-- C6: build_url strips leading/trailing whitespace and trailing
slashes from the domain and whitespace from the survey code, so the
padded domain of the example builds the same URL as the bare one. -/
theorem build_url_strip_normalizes :
    (∀ (w1 w2 : List Char) (k : Nat) (d : List Char) (c : String) (p : Params),
        (∀ x ∈ w1, pyIsSpace x = true) → (∀ x ∈ w2, pyIsSpace x = true) →
        d ≠ [] → pyIsSpace d.headI = false →
        pyIsSpace d.reverse.headI = false → d.reverse.headI ≠ '/' →
        build_url ⟨w1 ++ ((d ++ List.replicate k '/') ++ w2)⟩ c p
          = build_url ⟨d⟩ c p) ∧
    (∀ (w1 w2 cc : List Char) (d : String) (p : Params),
        (∀ x ∈ w1, pyIsSpace x = true) → (∀ x ∈ w2, pyIsSpace x = true) →
        cc ≠ [] → pyIsSpace cc.headI = false → pyIsSpace cc.reverse.headI = false →
        build_url d ⟨w1 ++ (cc ++ w2)⟩ p = build_url d ⟨cc⟩ p) ∧
    (∀ (c : String) (p : Params),
        build_url " pt.surveymonkey.com/ " c p
          = build_url "pt.surveymonkey.com" c p) := by
  refine ⟨?_, ?_, ?_⟩
  · intro w1 w2 k d c p hw1 hw2 hne hh hl hs
    simp only [build_url]
    rw [domainNorm_pad w1 w2 k d hw1 hw2 hne hh hl hs]
  · intro w1 w2 cc d p hw1 hw2 hne hh hl
    simp only [build_url]
    rw [pyStrip_pad w1 w2 cc hw1 hw2 hne hh hl]
  · intro c p
    simp only [build_url]
    rw [show domainNorm " pt.surveymonkey.com/ "
        = domainNorm "pt.surveymonkey.com" from by decide]

/-- Witness for C6 at the concrete padded domain of the example. -/
theorem build_url_strip_normalizes_witness :
    (∀ x ∈ [' '], pyIsSpace x = true) ∧
    build_url ⟨[' '] ++ (("pt.surveymonkey.com".data ++ List.replicate 1 '/') ++ [' '])⟩
        "9B9GS555" []
      = build_url ⟨"pt.surveymonkey.com".data⟩ "9B9GS555" [] :=
  ⟨by decide,
   build_url_strip_normalizes.1 [' '] [' '] 1 "pt.surveymonkey.com".data "9B9GS555" []
     (by decide) (by decide) (by decide) (by decide) (by decide) (by decide)⟩

/-! ### C7, C8, C10: top-level assembly -/

theorem assemble_keys (store_id order_id : String) (add_ts : Bool) (ts : String) :
    ∀ key ∈ (assemble_params store_id order_id add_ts ts).map Prod.fst,
      key = "store_id" ∨ key = "order_id" ∨ key = "ts" := by
  intro key h
  unfold assemble_params at h
  rw [List.map_append, List.map_append] at h
  rcases List.mem_append.mp h with h1 | h1
  · rcases List.mem_append.mp h1 with h2 | h2
    · left
      split_ifs at h2 <;> simpa using h2
    · right; left
      split_ifs at h2 <;> simpa using h2
  · right; right
    split_ifs at h1 <;> simpa using h1

theorem sig_not_mem_assemble (store_id order_id : String) (add_ts : Bool)
    (ts : String) :
    "sig" ∉ (assemble_params store_id order_id add_ts ts).map Prod.fst := by
  intro h
  rcases assemble_keys store_id order_id add_ts ts "sig" h with h1 | h1 | h1 <;>
    exact absurd h1 (by decide)

/-- C7: a sig entry appears in the final parameter mapping exactly when
signing was requested and the secret is non-empty; otherwise the mapping
is unchanged and no sig parameter exists to appear in the URL. -/
theorem sig_only_when_secret :
    ∀ (store_id order_id : String) (add_ts : Bool) (ts : String)
      (use_sig : Bool) (secret : String),
      ("sig" ∈ (final_params store_id order_id add_ts ts use_sig secret).map Prod.fst
          ↔ (use_sig = true ∧ secret ≠ "")) ∧
      (¬ (use_sig = true ∧ secret ≠ "") →
        final_params store_id order_id add_ts ts use_sig secret
          = assemble_params store_id order_id add_ts ts) := by
  intro s o a t u sec
  unfold final_params
  by_cases hc : u = true ∧ sec ≠ ""
  · rw [if_pos hc]
    refine ⟨⟨fun _ => hc, fun _ => ?_⟩, fun hn => absurd hc hn⟩
    rw [List.map_append]
    exact List.mem_append.mpr (Or.inr (by simp))
  · rw [if_neg hc]
    exact ⟨⟨fun h => (sig_not_mem_assemble s o a t h).elim, fun h => absurd h hc⟩,
      fun _ => rfl⟩

/-- Witness for C7: with signing off and an empty secret the mapping is
exactly the assembled one. -/
theorem sig_only_when_secret_witness :
    ¬ ((false : Bool) = true ∧ ("" : String) ≠ "") ∧
    final_params "045" "123456" false "t" false ""
      = assemble_params "045" "123456" false "t" :=
  ⟨by decide, (sig_only_when_secret "045" "123456" false "t" false "").2 (by decide)⟩

/-- C8 counterexample: with an empty survey code the module does not
refuse; it still builds and emits a URL with an empty survey segment. -/
theorem url_emitted_for_empty_survey_code :
    url_final "pt.surveymonkey.com" "" "" "" false "" false ""
      = "https://pt.surveymonkey.com/r/" := by decide

/-- C8 (amended): the module top level performs no validation of the
identifying fields: for every domain, the URL is built unconditionally,
and with an empty survey code (and no parameters) the emitted link is
https scheme, normalized domain, and a bare /r/ with an empty survey
segment, rather than a refusal or a visible prompt. -/
theorem url_final_no_validation :
    ∀ (domain ts : String),
      url_final domain "" "" "" false ts false ""
        = "https://" ++ domainNorm domain ++ "/r/" := by
  intro domain ts
  have h1 : url_final domain "" "" "" false ts false ""
      = build_url domain "" [] := rfl
  have h2 : build_url domain "" []
      = "https://" ++ domainNorm domain ++ "/r/" ++ pyStrip "" := rfl
  rw [h1, h2, show pyStrip "" = "" from rfl]
  exact String.append_empty _

/-- C10: the sig value is the signature of the mapping as it stood
before sig was appended: it covers exactly the non-sig entries, sig is
not among the assembled keys, and filtering sig back out of the final
mapping recovers the signed mapping. -/
theorem sig_covers_presig_params :
    ∀ (store_id order_id : String) (add_ts : Bool) (ts : String) (secret : String),
      secret ≠ "" →
      final_params store_id order_id add_ts ts true secret
          = assemble_params store_id order_id add_ts ts
            ++ [("sig", PValue.str (make_sig secret
                  (assemble_params store_id order_id add_ts ts)))] ∧
      "sig" ∉ (assemble_params store_id order_id add_ts ts).map Prod.fst ∧
      (final_params store_id order_id add_ts ts true secret).filter
          (fun kv => kv.1 != "sig")
        = assemble_params store_id order_id add_ts ts := by
  intro s o a t sec hsec
  have hmem := sig_not_mem_assemble s o a t
  have h1 : final_params s o a t true sec
      = assemble_params s o a t
        ++ [("sig", PValue.str (make_sig sec (assemble_params s o a t)))] := by
    unfold final_params
    rw [if_pos ⟨rfl, hsec⟩]
  refine ⟨h1, hmem, ?_⟩
  rw [h1, List.filter_append]
  have h2 : (assemble_params s o a t).filter (fun kv => kv.1 != "sig")
      = assemble_params s o a t :=
    List.filter_eq_self.mpr (fun kv hkv =>
      bne_iff_ne.mpr (fun he => hmem (he ▸ List.mem_map_of_mem Prod.fst hkv)))
  have h3 : ([("sig", PValue.str (make_sig sec (assemble_params s o a t)))].filter
      (fun kv => kv.1 != "sig")) = ([] : Params) := rfl
  rw [h2, h3]
  exact List.append_nil _

/-- Witness for C10 at concrete form inputs and secret. -/
theorem sig_covers_presig_params_witness :
    ("k" : String) ≠ "" ∧
    final_params "045" "123456" false "t" true "k"
      = assemble_params "045" "123456" false "t"
        ++ [("sig", PValue.str (make_sig "k" (assemble_params "045" "123456" false "t")))] :=
  ⟨by decide, (sig_covers_presig_params "045" "123456" false "t" "k" (by decide)).1⟩

end QRApp
